import Mathlib

/-!
Shallow embedding of the spaced-repetition scheduler of
`bashkir_memory_palace_enhanced_app/modules/spaced_repetition.py`.

Modelling conventions:
- Python floats are modelled as `ℚ` (the relevant constants 2.5, 1.3, 0.1,
  0.08, 0.02, 0.2 are exact decimals).
- Timestamps are modelled as `ℤ`, measured in days: `datetime.now()` becomes
  an explicit `now : ℤ` parameter, `timedelta(days=interval)` becomes
  integer addition, and comparison of ISO-format date strings becomes
  integer comparison (ISO strings compare like the instants they denote).
- `self.items` is a Python `dict`, which iterates in insertion order; it is
  modelled as an insertion-ordered association list `List (String × ReviewItem)`.
- Python `round` on the product `interval * ease_factor` is round-half-to-even
  (`pythonRound` below).
- Raising `ValueError` is modelled by `Except.error`.
-/

/-- `ReviewItem` dataclass: one word's review state.  Counters and the
interval are Python `int`s, hence `ℤ`; `next_review`/`last_review` are
`Optional[str]` ISO timestamps, modelled as `Option ℤ`. -/
structure ReviewItem where
  word_id : String
  bashkir : String
  english : String
  ease_factor : ℚ := 5/2
  interval : ℤ := 0
  repetitions : ℤ := 0
  next_review : Option ℤ := none
  last_review : Option ℤ := none
  total_reviews : ℤ := 0
  correct_count : ℤ := 0
  incorrect_count : ℤ := 0
deriving DecidableEq, Repr

/-- Python 3 `round` to an integer: round half to even. -/
def pythonRound (q : ℚ) : ℤ :=
  let f := ⌊q⌋
  let r := q - f
  if r < 1/2 then f
  else if 1/2 < r then f + 1
  else if f % 2 = 0 then f else f + 1

/-- The state of `SpacedRepetitionSystem`: the insertion-ordered `items`
dict.  (`data_file` persistence is I/O and outside the embedded state.) -/
structure SRS where
  items : List (String × ReviewItem)
deriving DecidableEq, Repr

/-- `word_id in self.items` / `self.items[word_id]` on the ordered dict. -/
def lookupItem (s : SRS) (wid : String) : Option ReviewItem :=
  (s.items.find? (fun p => p.1 = wid)).map Prod.snd

/-- `add_word`: insert a fresh item (with `next_review = now`) only when the
id is not yet tracked; return the tracked item. -/
def addWord (s : SRS) (wid bashkir english : String) (now : ℤ) :
    SRS × ReviewItem :=
  match lookupItem s wid with
  | some it => (s, it)
  | none =>
      let it : ReviewItem :=
        { word_id := wid, bashkir := bashkir, english := english,
          next_review := some now }
      (⟨s.items ++ [(wid, it)]⟩, it)

/-- In-place dict update `self.items[word_id] = item` for an existing key:
replace the entry, keeping its position. -/
def updateItems (items : List (String × ReviewItem)) (wid : String)
    (it : ReviewItem) : List (String × ReviewItem) :=
  items.map (fun p => if p.1 = wid then (p.1, it) else p)

/-- The body of `review` acting on one item (lines 90–121): clamp the
quality, bump counters, choose the branch on `quality >= 3`, update the
ease factor afterwards from the formula, then set `next_review`. -/
def reviewItem (it : ReviewItem) (quality : ℤ) (now : ℤ) : ReviewItem :=
  let q := max 0 (min 5 quality)
  let it1 := { it with total_reviews := it.total_reviews + 1,
                       last_review := some now }
  let it2 :=
    if q ≥ 3 then
      let newInterval : ℤ :=
        if it1.repetitions = 0 then 1
        else if it1.repetitions = 1 then 6
        else pythonRound ((it1.interval : ℚ) * it1.ease_factor)
      { it1 with correct_count := it1.correct_count + 1,
                 interval := newInterval,
                 repetitions := it1.repetitions + 1 }
    else
      { it1 with incorrect_count := it1.incorrect_count + 1,
                 repetitions := 0, interval := 1 }
  let newEase : ℚ :=
    max (13/10)
      (it2.ease_factor + (1/10 - ((5 : ℚ) - q) * (2/25 + ((5 : ℚ) - q) * (1/50))))
  let it3 := { it2 with ease_factor := newEase }
  { it3 with next_review := some (now + it3.interval) }

/-- `review(word_id, quality)`: `ValueError` when the id is not tracked,
otherwise mutate the stored item and return
`(new_interval, new_ease_factor, next_review)`. -/
def review (s : SRS) (wid : String) (quality : ℤ) (now : ℤ) :
    Except String (SRS × ℤ × ℚ × ℤ) :=
  match lookupItem s wid with
  | none => .error ("Word " ++ wid ++ " not found in review system")
  | some it =>
      let it2 := reviewItem it quality now
      .ok (⟨updateItems s.items wid it2⟩, it2.interval, it2.ease_factor,
           now + it2.interval)

/-- An item is due (`get_due_items` rule): `next_review` null, or `<= now`. -/
def isDueB (it : ReviewItem) (now : ℤ) : Bool :=
  match it.next_review with
  | none => true
  | some t => t ≤ now

/-- The effective due timestamp used as sort key: `now` for null
`next_review` (new items are immediately due), else the stored timestamp. -/
def dueKey (it : ReviewItem) (now : ℤ) : ℤ :=
  it.next_review.getD now

/-- The `due` list built by the loop in `get_due_items`: each due item
paired with its sort key, in dict (insertion) order. -/
def dueKeyed (s : SRS) (now : ℤ) : List (ReviewItem × ℤ) :=
  s.items.filterMap (fun p =>
    match p.2.next_review with
    | none => some (p.2, now)
    | some t => if t ≤ now then some (p.2, t) else none)

/-- Stable insertion by the second (timestamp) component: the new element
goes before the first element whose key is not smaller.  A stable sort by a
key is unique, so this computes the same list as Python's stable
`list.sort(key=lambda x: x[1])`. -/
def insertDue (x : ReviewItem × ℤ) :
    List (ReviewItem × ℤ) → List (ReviewItem × ℤ)
  | [] => [x]
  | y :: ys => if y.2 < x.2 then y :: insertDue x ys else x :: y :: ys

/-- Stable sort by the timestamp key (`due.sort(key=lambda x: x[1])`). -/
def sortDue : List (ReviewItem × ℤ) → List (ReviewItem × ℤ)
  | [] => []
  | x :: xs => insertDue x (sortDue xs)

/-- Python slice `items[:limit]` for an `int` limit (negative limits drop
from the end). -/
def pySliceTo (xs : List ReviewItem) (l : ℤ) : List ReviewItem :=
  if 0 ≤ l then xs.take l.toNat else xs.take (xs.length - (-l).toNat)

/-- `get_due_items(limit=None)`: collect due items with keys, stable-sort by
key, drop the keys, and apply `items[:limit]` only when `limit` is truthy
(`if limit:` — `None` and `0` are both falsy). -/
def getDueItems (s : SRS) (now : ℤ) (limit : Option ℤ) : List ReviewItem :=
  let items := (sortDue (dueKeyed s now)).map Prod.fst
  match limit with
  | none => items
  | some l => if l = 0 then items else pySliceTo items l

/-- Number of tracked items that are due under the due rule (the count the
spec says `due_today` reports). -/
def dueCount (s : SRS) (now : ℤ) : ℕ :=
  ((s.items.map Prod.snd).filter (fun it => isDueB it now)).length

/-- Python `round(x, n)` to `n` decimal places, half to even, on `ℚ`. -/
def roundTo (q : ℚ) (n : ℕ) : ℚ :=
  (pythonRound (q * 10 ^ n) : ℚ) / 10 ^ n

/-- The dictionary returned by `get_statistics`.  `new` is computed by
Python integer subtraction, so it is an `ℤ` field. -/
structure Stats where
  total_words : ℕ
  mastered : ℕ
  learning : ℕ
  new : ℤ
  due_today : ℕ
  average_ease : ℚ
  retention_rate : ℚ
deriving DecidableEq, Repr

/-- `get_statistics` (lines 161–204).  Note the `due_today` counting: the
loop guards with `if item.next_review:` first, so an item with a null
`next_review` is never counted. -/
def getStatistics (s : SRS) (now : ℤ) : Stats :=
  if s.items.isEmpty then ⟨0, 0, 0, 0, 0, 0, 0⟩
  else
    let mastered := (s.items.filter (fun p => p.2.interval ≥ 21)).length
    let learning := (s.items.filter
      (fun p => ¬ p.2.interval ≥ 21 ∧ p.2.total_reviews > 0)).length
    let due_today := (s.items.filter (fun p =>
      match p.2.next_review with
      | some t => t ≤ now
      | none => false)).length
    let ease_sum := (s.items.map (fun p => p.2.ease_factor)).sum
    let total_correct := (s.items.map (fun p => p.2.correct_count)).sum
    let total_reviews := (s.items.map (fun p => p.2.total_reviews)).sum
    { total_words := s.items.length
      mastered := mastered
      learning := learning
      new := (s.items.length : ℤ) - mastered - learning
      due_today := due_today
      average_ease := roundTo (ease_sum / s.items.length) 2
      retention_rate :=
        if total_reviews > 0 then roundTo ((total_correct : ℚ) / total_reviews * 100) 1
        else 0 }

/-- One entry of the external vocabulary list (`words_data`): a dict with
an optional `id` and the display fields the session reads. -/
structure WordData where
  id : Option String
  bashkir : String
  english : String
deriving DecidableEq, Repr

/-- `word.get('id', word.get('bashkir'))`. -/
def wordKey (w : WordData) : String := w.id.getD w.bashkir

/-- Loop body of `get_new_items`: untracked words in vocabulary order,
breaking once `len(new_words) >= limit` AFTER an append. -/
def getNewItemsAux (s : SRS) (limit : ℤ) :
    List WordData → List WordData → List WordData
  | [], acc => acc
  | w :: ws, acc =>
      if (lookupItem s (wordKey w)).isSome then getNewItemsAux s limit ws acc
      else if ((acc.length : ℤ) + 1) ≥ limit then acc ++ [w]
      else getNewItemsAux s limit ws (acc ++ [w])

/-- `get_new_items(words_data, limit=5)`. -/
def getNewItems (s : SRS) (words : List WordData) (limit : ℤ) :
    List WordData :=
  getNewItemsAux s limit words []

/-- `ReviewSession` state: the scheduler, the `words_data` dict (insertion
ordered), the queued items, the cursor, and the session stats. -/
structure ReviewSession where
  srs : SRS
  words_data : List (String × WordData)
  session_items : List ReviewItem
  current_index : ℕ
  stats_total : ℕ
  stats_correct : ℕ
  stats_incorrect : ℕ
deriving DecidableEq, Repr

/-- Python dict comprehension `{key(w): w for w in words}`: later
duplicates overwrite in place, new keys append. -/
def dictOfWords (words : List WordData) : List (String × WordData) :=
  words.foldl (fun d w =>
    if d.any (fun p => p.1 = wordKey w)
    then d.map (fun p => if p.1 = wordKey w then (p.1, w) else p)
    else d ++ [(wordKey w, w)]) []

/-- `ReviewSession.__init__`. -/
def mkSession (srs : SRS) (words : List WordData) : ReviewSession :=
  { srs := srs, words_data := dictOfWords words, session_items := [],
    current_index := 0, stats_total := 0, stats_correct := 0,
    stats_incorrect := 0 }

/-- `start_session(new_words=5, review_words=20)`: pull due items (capped),
pull untracked vocabulary entries (capped), `add_word` each of those and
append the stored item to the queue, reset cursor and stats; report whether
the queue is non-empty. -/
def startSession (sess : ReviewSession) (new_words review_words : ℤ)
    (now : ℤ) : ReviewSession × Bool :=
  let due := getDueItems sess.srs now (some review_words)
  let newData := getNewItems sess.srs (sess.words_data.map Prod.snd) new_words
  let step : SRS × List ReviewItem → WordData → SRS × List ReviewItem :=
    fun p w =>
      let r := addWord p.1 (wordKey w) w.bashkir w.english now
      (r.1, p.2 ++ [r.2])
  let built := newData.foldl step (sess.srs, due)
  ({ sess with srs := built.1, session_items := built.2, current_index := 0,
               stats_total := built.2.length, stats_correct := 0,
               stats_incorrect := 0 },
   !built.2.isEmpty)

/-- The dict returned by `submit_answer`: either `{'error': ...}` or the
result record with the progress fraction string. -/
inductive SubmitResult where
  | failed (msg : String)
  | ok (result : String) (new_interval : ℤ) (new_ease : ℚ)
       (next_review : ℤ) (progress : String)
deriving DecidableEq, Repr

/-- `submit_answer(quality)` (lines 303–331): `{'error': 'No more items'}`
when the cursor is past the end, otherwise review the current item through
the scheduler (a `ValueError` from `review` propagates as `Except.error`),
classify with the raw `quality >= 3`, and advance the cursor. -/
def submitAnswer (sess : ReviewSession) (quality : ℤ) (now : ℤ) :
    Except String (ReviewSession × SubmitResult) :=
  if h : sess.session_items.length ≤ sess.current_index then
    .ok (sess, .failed "No more items")
  else
    let item := sess.session_items.get
      ⟨sess.current_index, by omega⟩
    match review sess.srs item.word_id quality now with
    | .error e => .error e
    | .ok (srs2, interval, ease, next_r) =>
        let correctQ : Bool := quality ≥ 3
        let sess2 :=
          { sess with
            srs := srs2,
            stats_correct :=
              sess.stats_correct + (if correctQ then 1 else 0),
            stats_incorrect :=
              sess.stats_incorrect + (if correctQ then 0 else 1),
            current_index := sess.current_index + 1 }
        .ok (sess2,
          .ok (if correctQ then "correct" else "incorrect") interval ease
            next_r
            (toString (sess.current_index + 1) ++ "/" ++
              toString sess.session_items.length))

/-- The dict returned by `get_session_summary`. -/
structure SessionSummary where
  completed : ℕ
  remaining : ℤ
  correct : ℕ
  incorrect : ℕ
  accuracy : ℚ
deriving DecidableEq, Repr

/-- `get_session_summary` (lines 333–343): accuracy divides only when
`current_index > 0`. -/
def getSessionSummary (sess : ReviewSession) : SessionSummary :=
  { completed := sess.current_index,
    remaining := (sess.session_items.length : ℤ) - sess.current_index,
    correct := sess.stats_correct,
    incorrect := sess.stats_incorrect,
    accuracy :=
      if sess.current_index > 0 then
        roundTo ((sess.stats_correct : ℚ) / sess.current_index * 100) 1
      else 0 }

/-- Module-level convenience function `calculate_next_review` (lines
347–375).  Its failure branch uses a flat `current_ease - 0.2`, unlike
`review`. -/
def calculate_next_review (quality : ℤ) (current_ease : ℚ)
    (current_interval : ℤ) (repetitions : ℤ) : ℤ × ℚ :=
  if quality < 3 then (1, max (13/10) (current_ease - 1/5))
  else
    let new_interval : ℤ :=
      if repetitions = 0 then 1
      else if repetitions = 1 then 6
      else pythonRound ((current_interval : ℚ) * current_ease)
    (new_interval,
     max (13/10)
       (current_ease + (1/10 - ((5 : ℚ) - quality) * (2/25 + ((5 : ℚ) - quality) * (1/50)))))

/-- An abstract operation against the scheduler, for stating invariants
over arbitrary call sequences of `add_word` and `review`. -/
inductive Op where
  | add (wid bashkir english : String) (now : ℤ)
  | rev (wid : String) (quality : ℤ) (now : ℤ)
deriving DecidableEq, Repr

/-- Run one operation; a `review` raising `ValueError` leaves the state
unchanged (the exception fires before any mutation). -/
def applyOp (s : SRS) : Op → SRS
  | .add wid b e now => (addWord s wid b e now).1
  | .rev wid q now =>
      match review s wid q now with
      | .ok r => r.1
      | .error _ => s

/-- Run a sequence of operations from a state. -/
def runOps (s : SRS) (ops : List Op) : SRS :=
  ops.foldl applyOp s

/-- The scheduler's initial state: an empty `items` dict. -/
def emptySRS : SRS := ⟨[]⟩

/-! ### Projection lemmas for `reviewItem` -/

theorem reviewItem_ease_eq (it : ReviewItem) (q now : ℤ) :
    (reviewItem it q now).ease_factor =
      max (13/10) (it.ease_factor +
        (1/10 - ((5 : ℚ) - max 0 (min 5 q)) *
          (2/25 + ((5 : ℚ) - max 0 (min 5 q)) * (1/50)))) := by
  unfold reviewItem
  by_cases h : max 0 (min 5 q) ≥ 3 <;> simp [h]

theorem reviewItem_interval_eq (it : ReviewItem) (q now : ℤ) :
    (reviewItem it q now).interval =
      if 3 ≤ max 0 (min 5 q) then
        (if it.repetitions = 0 then 1
         else if it.repetitions = 1 then 6
         else pythonRound ((it.interval : ℚ) * it.ease_factor))
      else 1 := by
  unfold reviewItem
  by_cases h : max 0 (min 5 q) ≥ 3 <;> simp [h]

theorem reviewItem_repetitions_eq (it : ReviewItem) (q now : ℤ) :
    (reviewItem it q now).repetitions =
      if 3 ≤ max 0 (min 5 q) then it.repetitions + 1 else 0 := by
  unfold reviewItem
  by_cases h : max 0 (min 5 q) ≥ 3 <;> simp [h]

theorem reviewItem_total_eq (it : ReviewItem) (q now : ℤ) :
    (reviewItem it q now).total_reviews = it.total_reviews + 1 := by
  unfold reviewItem
  by_cases h : max 0 (min 5 q) ≥ 3 <;> simp [h]

theorem reviewItem_correct_eq (it : ReviewItem) (q now : ℤ) :
    (reviewItem it q now).correct_count =
      it.correct_count + (if 3 ≤ max 0 (min 5 q) then 1 else 0) := by
  unfold reviewItem
  by_cases h : max 0 (min 5 q) ≥ 3 <;> simp [h]

theorem reviewItem_incorrect_eq (it : ReviewItem) (q now : ℤ) :
    (reviewItem it q now).incorrect_count =
      it.incorrect_count + (if 3 ≤ max 0 (min 5 q) then 0 else 1) := by
  unfold reviewItem
  by_cases h : max 0 (min 5 q) ≥ 3 <;> simp [h]

/-! ### The stable sort in `get_due_items` -/

theorem insertDue_perm (x : ReviewItem × ℤ) (l : List (ReviewItem × ℤ)) :
    (insertDue x l).Perm (x :: l) := by
  induction l with
  | nil => simp [insertDue]
  | cons y ys ih =>
      by_cases h : y.2 < x.2
      · simp only [insertDue, if_pos h]
        exact ((ih.cons y).trans (List.Perm.swap x y ys))
      · simp [insertDue, if_neg h]

theorem sortDue_perm (l : List (ReviewItem × ℤ)) : (sortDue l).Perm l := by
  induction l with
  | nil => simp [sortDue]
  | cons x xs ih =>
      exact (insertDue_perm x (sortDue xs)).trans (ih.cons x)

theorem insertDue_sorted (x : ReviewItem × ℤ) (l : List (ReviewItem × ℤ))
    (hl : l.Pairwise (fun a b => a.2 ≤ b.2)) :
    (insertDue x l).Pairwise (fun a b => a.2 ≤ b.2) := by
  induction l with
  | nil => simp [insertDue]
  | cons y ys ih =>
      rcases List.pairwise_cons.1 hl with ⟨hy, hys⟩
      by_cases h : y.2 < x.2
      · simp only [insertDue, if_pos h]
        refine List.pairwise_cons.2 ⟨?_, ih hys⟩
        intro a ha
        rcases List.mem_cons.1 ((insertDue_perm x ys).mem_iff.1 ha) with rfl | ha
        · exact le_of_lt h
        · exact hy a ha
      · simp only [insertDue, if_neg h]
        refine List.pairwise_cons.2 ⟨?_, hl⟩
        intro a ha
        rcases List.mem_cons.1 ha with rfl | ha
        · exact le_of_not_lt h
        · exact le_trans (le_of_not_lt h) (hy a ha)

theorem sortDue_sorted (l : List (ReviewItem × ℤ)) :
    (sortDue l).Pairwise (fun a b => a.2 ≤ b.2) := by
  induction l with
  | nil => simp [sortDue]
  | cons x xs ih => exact insertDue_sorted x (sortDue xs) ih

theorem insertDue_filter_key (x : ReviewItem × ℤ) (l : List (ReviewItem × ℤ))
    (k : ℤ) :
    (insertDue x l).filter (fun p => p.2 == k) =
      if x.2 = k then x :: l.filter (fun p => p.2 == k)
      else l.filter (fun p => p.2 == k) := by
  induction l with
  | nil => by_cases hx : x.2 = k <;> simp [insertDue, hx]
  | cons y ys ih =>
      by_cases h : y.2 < x.2
      · simp only [insertDue, if_pos h]
        by_cases hx : x.2 = k
        · have hy : ¬ y.2 = k := by omega
          simp [List.filter_cons, hx, hy, ih]
        · by_cases hy : y.2 = k <;> simp [List.filter_cons, hx, hy, ih]
      · simp only [insertDue, if_neg h]
        by_cases hx : x.2 = k <;> simp [List.filter_cons, hx]

theorem sortDue_filter_key (l : List (ReviewItem × ℤ)) (k : ℤ) :
    (sortDue l).filter (fun p => p.2 == k) =
      l.filter (fun p => p.2 == k) := by
  induction l with
  | nil => simp [sortDue]
  | cons x xs ih =>
      by_cases hx : x.2 = k <;>
        simp [sortDue, insertDue_filter_key, hx, List.filter_cons, ih]

/-! ### Characterization of `get_due_items` -/

theorem dueKeyed_eq (s : SRS) (now : ℤ) :
    dueKeyed s now =
      ((s.items.map Prod.snd).filter (fun it => isDueB it now)).map
        (fun it => (it, dueKey it now)) := by
  obtain ⟨l⟩ := s
  induction l with
  | nil => simp [dueKeyed]
  | cons p ps ih =>
      cases hnr : p.2.next_review with
      | none =>
          simpa [dueKeyed, List.filterMap_cons, List.filter_cons, isDueB,
            dueKey, hnr] using ih
      | some t =>
          by_cases ht : t ≤ now <;>
            simpa [dueKeyed, List.filterMap_cons, List.filter_cons, isDueB,
              dueKey, hnr, ht] using ih

theorem mem_dueKeyed_key (s : SRS) (now : ℤ) (p : ReviewItem × ℤ)
    (hp : p ∈ dueKeyed s now) : p.2 = dueKey p.1 now := by
  rw [dueKeyed_eq] at hp
  rcases List.mem_map.1 hp with ⟨it, _, rfl⟩
  rfl

theorem getDueItems_none_perm (s : SRS) (now : ℤ) :
    (getDueItems s now none).Perm
      ((s.items.map Prod.snd).filter (fun it => isDueB it now)) := by
  have h1 : (getDueItems s now none) = (sortDue (dueKeyed s now)).map Prod.fst := rfl
  rw [h1]
  have h2 := (sortDue_perm (dueKeyed s now)).map Prod.fst
  refine h2.trans ?_
  rw [dueKeyed_eq, List.map_map]
  have hid : (Prod.fst ∘ fun it : ReviewItem => (it, dueKey it now)) = id := rfl
  rw [hid, List.map_id]

theorem getDueItems_none_sorted (s : SRS) (now : ℤ) :
    (getDueItems s now none).Pairwise
      (fun a b => dueKey a now ≤ dueKey b now) := by
  have h1 : (getDueItems s now none) = (sortDue (dueKeyed s now)).map Prod.fst := rfl
  rw [h1, List.pairwise_map]
  have hs := sortDue_sorted (dueKeyed s now)
  refine hs.imp_of_mem ?_
  intro a b ha hb hab
  have ha2 := mem_dueKeyed_key s now a ((sortDue_perm _).subset ha)
  have hb2 := mem_dueKeyed_key s now b ((sortDue_perm _).subset hb)
  rw [ha2, hb2] at hab
  exact hab

theorem getDueItems_none_stable (s : SRS) (now : ℤ) (k : ℤ) :
    (getDueItems s now none).filter (fun it => dueKey it now == k) =
      ((s.items.map Prod.snd).filter (fun it => isDueB it now)).filter
        (fun it => dueKey it now == k) := by
  have h1 : (getDueItems s now none) = (sortDue (dueKeyed s now)).map Prod.fst := rfl
  rw [h1, List.filter_map]
  have hcongr : (sortDue (dueKeyed s now)).filter
        ((fun it => dueKey it now == k) ∘ Prod.fst) =
      (sortDue (dueKeyed s now)).filter (fun p => p.2 == k) := by
    refine List.filter_congr ?_
    intro p hp
    have := mem_dueKeyed_key s now p ((sortDue_perm _).subset hp)
    simp [this]
  rw [hcongr, sortDue_filter_key]
  have hcongr2 : (dueKeyed s now).filter (fun p => p.2 == k) =
      (dueKeyed s now).filter ((fun it => dueKey it now == k) ∘ Prod.fst) := by
    refine List.filter_congr ?_
    intro p hp
    have := mem_dueKeyed_key s now p hp
    simp [this]
  rw [hcongr2, ← List.filter_map, dueKeyed_eq, List.map_map]
  have hid : (Prod.fst ∘ fun it : ReviewItem => (it, dueKey it now)) = id := rfl
  rw [hid, List.map_id]

theorem getDueItems_pos_limit (s : SRS) (now : ℤ) (l : ℤ) (hl : 0 < l) :
    getDueItems s now (some l) = (getDueItems s now none).take l.toNat := by
  have hne : l ≠ 0 := by omega
  simp [getDueItems, pySliceTo, hne, le_of_lt hl]

/-! ### Lookup lemmas for the `items` dict -/

theorem lookupItem_update (l : List (String × ReviewItem)) (wid : String)
    (it : ReviewItem) (k : String) :
    lookupItem ⟨updateItems l wid it⟩ k =
      if k = wid then (lookupItem ⟨l⟩ k).map (fun _ => it)
      else lookupItem ⟨l⟩ k := by
  induction l with
  | nil => by_cases h : k = wid <;> simp [lookupItem, updateItems, h]
  | cons p ps ih =>
      simp only [lookupItem, updateItems, List.map_cons] at ih ⊢
      by_cases hpw : p.1 = wid
      · by_cases hkw : k = wid
        · subst hkw
          simp [List.find?_cons_of_pos, hpw, List.find?_cons]
        · have hpk : ¬ p.1 = k := fun h => hkw (hpw ▸ h.symm ▸ rfl)
          have hpk2 : ¬ (p.1, it).1 = k := hpk
          simp only [if_pos hpw]
          rw [List.find?_cons_of_neg _ (by simpa using hpk2),
              List.find?_cons_of_neg _ (by simpa using hpk)]
          simpa [hkw] using ih
      · by_cases hpk : p.1 = k
        · have hkw : ¬ k = wid := fun h => hpw (hpk ▸ h ▸ rfl)
          simp only [if_neg hpw]
          rw [List.find?_cons_of_pos _ (by simpa using hpk),
              List.find?_cons_of_pos _ (by simpa using hpk)]
          simp [hkw]
        · simp only [if_neg hpw]
          rw [List.find?_cons_of_neg _ (by simpa using hpk),
              List.find?_cons_of_neg _ (by simpa using hpk)]
          simpa using ih

theorem lookupItem_append_some (l l2 : List (String × ReviewItem))
    (k : String) (it : ReviewItem) (h : lookupItem ⟨l⟩ k = some it) :
    lookupItem ⟨l ++ l2⟩ k = some it := by
  simp only [lookupItem, List.find?_append] at h ⊢
  rcases hf : l.find? (fun p => p.1 = k) with _ | p
  · simp [hf] at h
  · simp [hf] at h ⊢
    exact h

theorem lookupItem_mem (s : SRS) (k : String) (it : ReviewItem)
    (h : lookupItem s k = some it) : ∃ p ∈ s.items, p.2 = it := by
  simp only [lookupItem] at h
  rcases hf : s.items.find? (fun p => p.1 = k) with _ | p
  · rw [hf] at h; simp at h
  · rw [hf] at h
    exact ⟨p, List.mem_of_find?_eq_some hf, by simpa using h⟩

/-! ### Case lemmas for single operations -/

theorem review_eq_ok (s : SRS) (wid : String) (q now : ℤ) (it : ReviewItem)
    (h : lookupItem s wid = some it) :
    review s wid q now =
      .ok (⟨updateItems s.items wid (reviewItem it q now)⟩,
           (reviewItem it q now).interval, (reviewItem it q now).ease_factor,
           now + (reviewItem it q now).interval) := by
  unfold review
  rw [h]

theorem review_eq_error (s : SRS) (wid : String) (q now : ℤ)
    (h : lookupItem s wid = none) :
    review s wid q now =
      .error ("Word " ++ wid ++ " not found in review system") := by
  unfold review
  rw [h]

theorem applyOp_rev_ok (s : SRS) (wid : String) (q now : ℤ)
    (it : ReviewItem) (h : lookupItem s wid = some it) :
    applyOp s (.rev wid q now) =
      ⟨updateItems s.items wid (reviewItem it q now)⟩ := by
  simp only [applyOp, review_eq_ok s wid q now it h]

theorem applyOp_rev_error (s : SRS) (wid : String) (q now : ℤ)
    (h : lookupItem s wid = none) : applyOp s (.rev wid q now) = s := by
  simp only [applyOp, review_eq_error s wid q now h]

theorem applyOp_add_some (s : SRS) (wid b e : String) (now : ℤ)
    (it : ReviewItem) (h : lookupItem s wid = some it) :
    applyOp s (.add wid b e now) = s := by
  simp only [applyOp, addWord, h]

theorem applyOp_add_none (s : SRS) (wid b e : String) (now : ℤ)
    (h : lookupItem s wid = none) :
    applyOp s (.add wid b e now) =
      ⟨s.items ++ [(wid, { word_id := wid, bashkir := b, english := e,
                           next_review := some now })]⟩ := by
  simp only [applyOp, addWord, h]

/-! ### Generic per-item invariant preservation -/

theorem items_applyOp (P : ReviewItem → Prop)
    (hfresh : ∀ wid b e n, P { word_id := wid, bashkir := b, english := e,
                               next_review := some n })
    (hrev : ∀ it q n, P it → P (reviewItem it q n))
    (s : SRS) (op : Op) (hs : ∀ p ∈ s.items, P p.2) :
    ∀ p ∈ (applyOp s op).items, P p.2 := by
  intro p hp
  cases op with
  | add wid b e n =>
      cases hl : lookupItem s wid with
      | some it =>
          rw [applyOp_add_some s wid b e n it hl] at hp
          exact hs p hp
      | none =>
          rw [applyOp_add_none s wid b e n hl] at hp
          rcases List.mem_append.1 hp with h | h
          · exact hs p h
          · rcases List.mem_singleton.1 h with rfl
            exact hfresh wid b e n
  | rev wid q n =>
      cases hl : lookupItem s wid with
      | none =>
          rw [applyOp_rev_error s wid q n hl] at hp
          exact hs p hp
      | some it =>
          rw [applyOp_rev_ok s wid q n it hl] at hp
          simp only [updateItems, List.mem_map] at hp
          rcases hp with ⟨p0, hp0, rfl⟩
          have hPit : P it := by
            rcases lookupItem_mem s wid it hl with ⟨p1, hp1, hp12⟩
            exact hp12 ▸ hs p1 hp1
          by_cases hw : p0.1 = wid
          · simp only [hw, if_pos rfl]
            exact hrev it q n hPit
          · simp only [if_neg hw]
            exact hs p0 hp0

theorem items_runOps (P : ReviewItem → Prop)
    (hfresh : ∀ wid b e n, P { word_id := wid, bashkir := b, english := e,
                               next_review := some n })
    (hrev : ∀ it q n, P it → P (reviewItem it q n)) :
    ∀ (ops : List Op) (s : SRS), (∀ p ∈ s.items, P p.2) →
      ∀ p ∈ (runOps s ops).items, P p.2 := by
  intro ops
  induction ops with
  | nil => intro s hs p hp; exact hs p hp
  | cons op ops ih =>
      intro s hs p hp
      exact ih (applyOp s op) (items_applyOp P hfresh hrev s op hs) p hp

/-- Per-step counter monotonicity: a tracked item's counters never decrease
across a single `add_word` or `review` operation. -/
theorem counters_mono_applyOp (s : SRS) (op : Op) (k : String)
    (it it2 : ReviewItem) (h1 : lookupItem s k = some it)
    (h2 : lookupItem (applyOp s op) k = some it2) :
    it.total_reviews ≤ it2.total_reviews ∧
    it.correct_count ≤ it2.correct_count ∧
    it.incorrect_count ≤ it2.incorrect_count := by
  cases op with
  | add wid b e n =>
      cases hl : lookupItem s wid with
      | some it0 =>
          rw [applyOp_add_some s wid b e n it0 hl, h1] at h2
          cases h2
          exact ⟨le_refl _, le_refl _, le_refl _⟩
      | none =>
          rw [applyOp_add_none s wid b e n hl] at h2
          rw [lookupItem_append_some s.items _ k it h1] at h2
          cases h2
          exact ⟨le_refl _, le_refl _, le_refl _⟩
  | rev wid q n =>
      cases hl : lookupItem s wid with
      | none =>
          rw [applyOp_rev_error s wid q n hl, h1] at h2
          cases h2
          exact ⟨le_refl _, le_refl _, le_refl _⟩
      | some it0 =>
          rw [applyOp_rev_ok s wid q n it0 hl,
              lookupItem_update s.items wid (reviewItem it0 q n) k] at h2
          by_cases hk : k = wid
          · subst hk
            rw [h1] at hl
            cases hl
            rw [if_pos rfl, h1] at h2
            have h3 : reviewItem it q n = it2 := by simpa using h2
            subst h3
            refine ⟨?_, ?_, ?_⟩ <;>
              simp only [reviewItem_total_eq, reviewItem_correct_eq,
                reviewItem_incorrect_eq] <;> (try split_ifs) <;> omega
          · rw [if_neg hk, h1] at h2
            cases h2
            exact ⟨le_refl _, le_refl _, le_refl _⟩

/-! ### Empty-session helper lemmas -/

theorem dueKeyed_eq_nil (s : SRS) (now : ℤ)
    (h : ∀ p ∈ s.items, isDueB p.2 now = false) : dueKeyed s now = [] := by
  rw [dueKeyed_eq]
  have hf : (s.items.map Prod.snd).filter (fun it => isDueB it now) = [] := by
    rw [List.filter_eq_nil_iff]
    intro a ha
    rcases List.mem_map.1 ha with ⟨p, hp, rfl⟩
    simp [h p hp]
  rw [hf]
  rfl

theorem getDueItems_eq_nil (s : SRS) (now : ℤ) (limit : Option ℤ)
    (h : ∀ p ∈ s.items, isDueB p.2 now = false) :
    getDueItems s now limit = [] := by
  unfold getDueItems
  rw [dueKeyed_eq_nil s now h]
  cases limit with
  | none => rfl
  | some l =>
      by_cases hl : l = 0
      · simp [hl, sortDue]
      · simp [hl, sortDue, pySliceTo]

theorem getNewItemsAux_all_tracked (s : SRS) (limit : ℤ) :
    ∀ (ws : List WordData) (acc : List WordData),
      (∀ w ∈ ws, (lookupItem s (wordKey w)).isSome) →
      getNewItemsAux s limit ws acc = acc := by
  intro ws
  induction ws with
  | nil => intro acc _; rfl
  | cons w ws ih =>
      intro acc h
      have hw : (lookupItem s (wordKey w)).isSome :=
        h w (List.mem_cons_self w ws)
      unfold getNewItemsAux
      rw [if_pos hw]
      exact ih acc (fun w2 hw2 => h w2 (List.mem_cons_of_mem w hw2))

/-! ### Concrete states used by counterexamples and witnesses -/

/-- A brand-new `ReviewItem` with the dataclass defaults, in particular a
null `next_review` (reachable via `ReviewItem.from_dict` / direct
construction). -/
def nullItem : ReviewItem := { word_id := "w1", bashkir := "b", english := "e" }

/-- A one-item scheduler whose item has a null `next_review`. -/
def nullSRS : SRS := ⟨[("w1", nullItem)]⟩

/-- An item overdue at time `0` (`next_review = -1`). -/
def overdueItem : ReviewItem :=
  { word_id := "w1", bashkir := "b", english := "e", next_review := some (-1) }

/-- A one-item scheduler with an overdue item. -/
def overdueSRS : SRS := ⟨[("w1", overdueItem)]⟩

/-- An item scheduled in the future (`next_review = 5`). -/
def futureItem : ReviewItem :=
  { word_id := "w1", bashkir := "b", english := "e", next_review := some 5 }

/-- A one-item scheduler with only the future item. -/
def futureSRS : SRS := ⟨[("w1", futureItem)]⟩

/-- An item mid-lifecycle: `interval=10, repetitions=3`, default ease 2.5. -/
def matureItem : ReviewItem :=
  { word_id := "w1", bashkir := "b", english := "e", interval := 10,
    repetitions := 3 }

/-- C1 counterexample: in the state `nullSRS` (one tracked item with null
`next_review`), the item is due under the due rule, but `get_statistics`
reports `due_today = 0`, so `due_today` does not equal the number of due
items. -/
theorem c1_counterexample :
    (getStatistics nullSRS 0).due_today ≠ dueCount nullSRS 0 := by
  simp [getStatistics, dueCount, nullSRS, nullItem, isDueB]

/-- C1 (amended): for every scheduler state in which every tracked item has
a non-null `next_review` (which includes every state produced by `add_word`
and `review`), the `due_today` field of `get_statistics` equals the number
of tracked items that are due under the due rule.  The amendment is forced
by `c1_counterexample`: an item with null `next_review` is due under the
due rule but is skipped by the `if item.next_review:` guard in
`get_statistics`. -/
theorem c1_due_today_eq_dueCount (s : SRS) (now : ℤ)
    (h : ∀ p ∈ s.items, p.2.next_review.isSome) :
    (getStatistics s now).due_today = dueCount s now := by
  unfold getStatistics dueCount
  by_cases hemp : s.items.isEmpty
  · rw [List.isEmpty_iff] at hemp
    simp [hemp]
  · simp only [hemp, Bool.false_eq_true, if_false]
    rw [List.filter_map, List.length_map]
    apply congrArg List.length
    apply List.filter_congr
    intro p hp
    rcases Option.isSome_iff_exists.1 (h p hp) with ⟨t, ht⟩
    simp [Function.comp, isDueB, ht]

/-- Witness for `c1_due_today_eq_dueCount` at the concrete state
`futureSRS` at time `7` (the item is due). -/
theorem c1_witness :
    (getStatistics futureSRS 7).due_today = dueCount futureSRS 7 :=
  c1_due_today_eq_dueCount futureSRS 7 (by decide)

/-- C2 counterexample: `get_due_items` with the given limit `0` does not
return the first `0` items of the sorted due sequence — because of the
falsy `if limit:` test it returns all of them. -/
theorem c2_counterexample :
    getDueItems overdueSRS 0 (some 0) ≠
      (getDueItems overdueSRS 0 none).take (Int.toNat 0) := by
  simp [getDueItems, dueKeyed, sortDue, insertDue, pySliceTo, overdueSRS,
    overdueItem]

/-- C2 (amended): `get_due_items` with no limit returns a permutation of
exactly the tracked items that are due (`next_review` null or `<= now`),
sorted ascending by effective due timestamp (`dueKey`, with null sorting as
`now`), with ties kept in dict insertion order (the filter-by-key equation,
which together with sortedness pins the output down uniquely, hence stably
run-to-run); a POSITIVE given limit returns the first `limit` items of that
sorted sequence.  The amendment is forced by `c2_counterexample`: a given
limit of `0` is falsy in Python, so the slice is skipped and all items are
returned.  The embedded query is a pure function of the state, so it
mutates nothing. -/
theorem c2_get_due_items (s : SRS) (now : ℤ) :
    (getDueItems s now none).Perm
        ((s.items.map Prod.snd).filter (fun it => isDueB it now)) ∧
    (getDueItems s now none).Pairwise
        (fun a b => dueKey a now ≤ dueKey b now) ∧
    (∀ k : ℤ, (getDueItems s now none).filter (fun it => dueKey it now == k) =
        ((s.items.map Prod.snd).filter (fun it => isDueB it now)).filter
          (fun it => dueKey it now == k)) ∧
    (∀ l : ℤ, 0 < l →
        getDueItems s now (some l) = (getDueItems s now none).take l.toNat) :=
  ⟨getDueItems_none_perm s now, getDueItems_none_sorted s now,
   getDueItems_none_stable s now, getDueItems_pos_limit s now⟩

/-- Witness for `c2_get_due_items`: the positive-limit clause at the
concrete state `overdueSRS`, limit `1`. -/
theorem c2_witness :
    getDueItems overdueSRS 0 (some 1) =
      (getDueItems overdueSRS 0 none).take (Int.toNat 1) :=
  (c2_get_due_items overdueSRS 0).2.2.2 1 (by decide)

/-- C3: on a successful review (clamped quality `>= 3`) the new interval is
1 when `repetitions = 0`, 6 when `repetitions = 1`, and otherwise
`round(interval * ease_factor)` with the PRE-update ease factor; hence a
fresh item's third consecutive success yields
`interval = round(6 * ease_factor_after_second_review)`. -/
theorem c3_success_interval_bootstrap (it : ReviewItem) (q now : ℤ)
    (h : 3 ≤ max 0 (min 5 q)) :
    ((it.repetitions = 0 → (reviewItem it q now).interval = 1) ∧
     (it.repetitions = 1 → (reviewItem it q now).interval = 6) ∧
     (it.repetitions ≠ 0 → it.repetitions ≠ 1 →
       (reviewItem it q now).interval =
         pythonRound ((it.interval : ℚ) * it.ease_factor))) ∧
    (∀ (it0 : ReviewItem) (q1 q2 q3 n1 n2 n3 : ℤ),
      it0.repetitions = 0 →
      3 ≤ max 0 (min 5 q1) → 3 ≤ max 0 (min 5 q2) → 3 ≤ max 0 (min 5 q3) →
      (reviewItem (reviewItem (reviewItem it0 q1 n1) q2 n2) q3 n3).interval =
        pythonRound
          (6 * (reviewItem (reviewItem it0 q1 n1) q2 n2).ease_factor)) := by
  constructor
  · refine ⟨?_, ?_, ?_⟩
    · intro h0
      rw [reviewItem_interval_eq]
      simp [h, h0]
    · intro h1
      rw [reviewItem_interval_eq]
      simp [h, h1]
    · intro h0 h1
      rw [reviewItem_interval_eq]
      simp [h, h0, h1]
  · intro it0 q1 q2 q3 n1 n2 n3 h0 hq1 hq2 hq3
    have r1 : (reviewItem it0 q1 n1).repetitions = 1 := by
      rw [reviewItem_repetitions_eq]
      simp [hq1, h0]
    have i2 : (reviewItem (reviewItem it0 q1 n1) q2 n2).interval = 6 := by
      rw [reviewItem_interval_eq]
      simp [hq2, r1]
    have r2 : (reviewItem (reviewItem it0 q1 n1) q2 n2).repetitions = 2 := by
      rw [reviewItem_repetitions_eq]
      simp [hq2, r1]
    rw [reviewItem_interval_eq]
    simp [hq3, r2, i2]

/-- Witness for `c3_success_interval_bootstrap`: three perfect reviews of a
fresh item, checking the third interval against
`round(6 * ease_after_second)`. -/
theorem c3_witness :
    (reviewItem (reviewItem (reviewItem nullItem 5 0) 5 0) 5 0).interval =
      pythonRound (6 * (reviewItem (reviewItem nullItem 5 0) 5 0).ease_factor) :=
  (c3_success_interval_bootstrap nullItem 5 0 (by decide)).2 nullItem 5 5 5 0 0 0
    (by decide) (by decide) (by decide) (by decide)

/-- C4: over every sequence of `add_word`/`review` operations from the
empty scheduler, every tracked item's ease factor stays `>= 1.3`, and each
`review` sets the new ease factor to
`max(1.3, old + (0.1 - (5 - clamped_q) * (0.08 + (5 - clamped_q) * 0.02)))`
in both the success and the failure branch (the update sits after the
`if`/`else`). -/
theorem c4_ease_floor :
    (∀ (ops : List Op), ∀ p ∈ (runOps emptySRS ops).items,
        (13 : ℚ)/10 ≤ p.2.ease_factor) ∧
    (∀ (it : ReviewItem) (q now : ℤ),
        (reviewItem it q now).ease_factor =
          max (13/10) (it.ease_factor +
            (1/10 - ((5 : ℚ) - max 0 (min 5 q)) *
              (2/25 + ((5 : ℚ) - max 0 (min 5 q)) * (1/50))))) := by
  constructor
  · intro ops p hp
    refine items_runOps (fun it => (13 : ℚ)/10 ≤ it.ease_factor) ?_ ?_ ops
      emptySRS ?_ p hp
    · intro wid b e n
      show (13 : ℚ)/10 ≤ 5/2
      norm_num
    · intro it q n _
      rw [reviewItem_ease_eq]
      exact le_max_left _ _
    · intro p hp2
      simp [emptySRS] at hp2
  · intro it q now
    exact reviewItem_ease_eq it q now

/-- The item created by `add_word("w1", "b", "e")` at time `0`. -/
def freshW1 : ReviewItem :=
  { word_id := "w1", bashkir := "b", english := "e", next_review := some 0 }

/-- Witness for `c4_ease_floor`: the ease floor holds for the item tracked
after one `add_word` from the empty scheduler. -/
theorem c4_witness : (13 : ℚ)/10 ≤ freshW1.ease_factor :=
  c4_ease_floor.1 [Op.add "w1" "b" "e" 0] ("w1", freshW1)
    (by simp [runOps, applyOp, addWord, lookupItem, emptySRS, freshW1])

/-- C5: over every sequence of `add_word`/`review` operations from the
empty scheduler, every tracked item satisfies
`total_reviews = correct_count + incorrect_count` with all three counters
non-negative, and across any single operation a tracked item's counters
never decrease. -/
theorem c5_counter_consistency :
    (∀ (ops : List Op), ∀ p ∈ (runOps emptySRS ops).items,
        p.2.total_reviews = p.2.correct_count + p.2.incorrect_count ∧
        0 ≤ p.2.total_reviews ∧ 0 ≤ p.2.correct_count ∧
        0 ≤ p.2.incorrect_count) ∧
    (∀ (s : SRS) (op : Op) (k : String) (it it2 : ReviewItem),
        lookupItem s k = some it → lookupItem (applyOp s op) k = some it2 →
        it.total_reviews ≤ it2.total_reviews ∧
        it.correct_count ≤ it2.correct_count ∧
        it.incorrect_count ≤ it2.incorrect_count) := by
  constructor
  · intro ops p hp
    refine items_runOps
      (fun it => it.total_reviews = it.correct_count + it.incorrect_count ∧
        0 ≤ it.total_reviews ∧ 0 ≤ it.correct_count ∧ 0 ≤ it.incorrect_count)
      ?_ ?_ ops emptySRS ?_ p hp
    · intro wid b e n
      exact ⟨by norm_num, by norm_num, by norm_num, by norm_num⟩
    · intro it q n hP
      rcases hP with ⟨heq, h1, h2, h3⟩
      refine ⟨?_, ?_, ?_, ?_⟩ <;>
        simp only [reviewItem_total_eq, reviewItem_correct_eq,
          reviewItem_incorrect_eq] <;> (try split_ifs) <;> omega
    · intro p hp2
      simp [emptySRS] at hp2
  · intro s op k it it2 h1 h2
    exact counters_mono_applyOp s op k it it2 h1 h2

/-- Witness for `c5_counter_consistency`: the counter invariant for the
item tracked after one `add_word` from the empty scheduler. -/
theorem c5_witness :
    freshW1.total_reviews = freshW1.correct_count + freshW1.incorrect_count ∧
    0 ≤ freshW1.total_reviews ∧ 0 ≤ freshW1.correct_count ∧
    0 ≤ freshW1.incorrect_count :=
  c5_counter_consistency.1 [Op.add "w1" "b" "e" 0] ("w1", freshW1)
    (by simp [runOps, applyOp, addWord, lookupItem, emptySRS, freshW1])

/-- C6: `review` on a tracked item accepts ANY integer quality (clamping it
silently into `[0,5]` instead of rejecting), takes the failure branch
exactly when the clamped quality is `< 3` (witnessed by `incorrect_count`),
and in that branch resets `repetitions` to 0, sets `interval` to 1 and
increments `incorrect_count`, regardless of the item's prior state. -/
theorem c6_clamp_and_failure_branch (s : SRS) (wid : String) (q now : ℤ)
    (it : ReviewItem) (hfound : lookupItem s wid = some it) :
    (∃ out, review s wid q now = Except.ok out) ∧
    (0 ≤ max 0 (min 5 q) ∧ max 0 (min 5 q) ≤ 5) ∧
    ((reviewItem it q now).incorrect_count = it.incorrect_count + 1 ↔
        max 0 (min 5 q) < 3) ∧
    (max 0 (min 5 q) < 3 →
        (reviewItem it q now).repetitions = 0 ∧
        (reviewItem it q now).interval = 1) := by
  refine ⟨⟨_, review_eq_ok s wid q now it hfound⟩,
    ⟨le_max_left 0 _, max_le (by norm_num) (min_le_left 5 q)⟩, ?_, ?_⟩
  · rw [reviewItem_incorrect_eq]
    by_cases hc : 3 ≤ max 0 (min 5 q)
    · rw [if_pos hc]
      simp only [not_lt.2 hc, iff_false]
      omega
    · rw [if_neg hc]
      simp only [not_le] at hc
      simp only [hc, iff_true]
  · intro hlt
    constructor
    · rw [reviewItem_repetitions_eq, if_neg (not_le.2 hlt)]
    · rw [reviewItem_interval_eq, if_neg (not_le.2 hlt)]

/-- Witness for `c6_clamp_and_failure_branch`: reviewing the overdue item
with the out-of-range quality `-7` (clamped to 0, a failure). -/
theorem c6_witness :
    (∃ out, review overdueSRS "w1" (-7) 0 = Except.ok out) ∧
    (0 ≤ max 0 (min 5 (-7 : ℤ)) ∧ max 0 (min 5 (-7 : ℤ)) ≤ 5) ∧
    ((reviewItem overdueItem (-7) 0).incorrect_count =
        overdueItem.incorrect_count + 1 ↔ max 0 (min 5 (-7 : ℤ)) < 3) ∧
    (max 0 (min 5 (-7 : ℤ)) < 3 →
        (reviewItem overdueItem (-7) 0).repetitions = 0 ∧
        (reviewItem overdueItem (-7) 0).interval = 1) :=
  c6_clamp_and_failure_branch overdueSRS "w1" (-7) 0 overdueItem rfl

/-- C7: `review` on an id that is not tracked fails with the
`ValueError`-style "not found" error (it does not silently create a default
item), and the scheduler state is unchanged by the failed call. -/
theorem c7_unknown_item_error (s : SRS) (wid : String) (q now : ℤ)
    (h : lookupItem s wid = none) :
    review s wid q now =
      Except.error ("Word " ++ wid ++ " not found in review system") ∧
    applyOp s (.rev wid q now) = s :=
  ⟨review_eq_error s wid q now h, applyOp_rev_error s wid q now h⟩

/-- Witness for `c7_unknown_item_error`: reviewing an id on the empty
scheduler. -/
theorem c7_witness :
    review emptySRS "missing" 4 0 =
      Except.error ("Word " ++ "missing" ++ " not found in review system") ∧
    applyOp emptySRS (.rev "missing" 4 0) = emptySRS :=
  c7_unknown_item_error emptySRS "missing" 4 0 rfl

/-- C8: when the session cursor is at or past the end of the queue (the
Complete state), `submit_answer` returns the `{'error': 'No more items'}`
record and leaves the whole session — cursor, session stats, and the
scheduler's per-item state — unchanged. -/
theorem c8_submit_after_complete (sess : ReviewSession) (q now : ℤ)
    (h : sess.session_items.length ≤ sess.current_index) :
    submitAnswer sess q now =
      Except.ok (sess, SubmitResult.failed "No more items") := by
  unfold submitAnswer
  rw [dif_pos h]

/-- Witness for `c8_submit_after_complete`: submitting to a freshly
constructed (empty, hence Complete) session. -/
theorem c8_witness :
    submitAnswer (mkSession emptySRS []) 4 0 =
      Except.ok (mkSession emptySRS [], SubmitResult.failed "No more items") :=
  c8_submit_after_complete (mkSession emptySRS []) 4 0 (by decide)

/-- C9: `start_session` against a scheduler with no due items and a
vocabulary with no untracked entries returns `has_items = false`, an empty
queue (immediately Complete), an unchanged scheduler, and
`get_session_summary` then returns
`{completed: 0, remaining: 0, correct: 0, incorrect: 0, accuracy: 0}` —
the accuracy division is guarded by `completed > 0`, so nothing divides by
zero. -/
theorem c9_empty_session (sess : ReviewSession) (nw revw now : ℤ)
    (hdue : ∀ p ∈ sess.srs.items, isDueB p.2 now = false)
    (hnew : ∀ p ∈ sess.words_data,
        (lookupItem sess.srs (wordKey p.2)).isSome) :
    (startSession sess nw revw now).2 = false ∧
    (startSession sess nw revw now).1.session_items = [] ∧
    (startSession sess nw revw now).1.srs = sess.srs ∧
    getSessionSummary (startSession sess nw revw now).1 =
      ⟨0, 0, 0, 0, 0⟩ := by
  have hDueNil : getDueItems sess.srs now (some revw) = [] :=
    getDueItems_eq_nil _ _ _ hdue
  have hNewNil : getNewItems sess.srs (sess.words_data.map Prod.snd) nw = [] := by
    unfold getNewItems
    apply getNewItemsAux_all_tracked
    intro w hw
    rcases List.mem_map.1 hw with ⟨p, hp, rfl⟩
    exact hnew p hp
  unfold startSession
  rw [hDueNil, hNewNil]
  simp [getSessionSummary]

/-- Witness for `c9_empty_session`: a session over a scheduler whose only
item is scheduled in the future, with a vocabulary consisting of that same
(already tracked) word, at time `0`. -/
theorem c9_witness :
    (startSession (mkSession futureSRS [⟨some "w1", "b", "e"⟩]) 5 20 0).2 =
        false ∧
    (startSession (mkSession futureSRS [⟨some "w1", "b", "e"⟩]) 5 20
        0).1.session_items = [] ∧
    (startSession (mkSession futureSRS [⟨some "w1", "b", "e"⟩]) 5 20
        0).1.srs = (mkSession futureSRS [⟨some "w1", "b", "e"⟩]).srs ∧
    getSessionSummary
        (startSession (mkSession futureSRS [⟨some "w1", "b", "e"⟩]) 5 20
          0).1 = ⟨0, 0, 0, 0, 0⟩ :=
  c9_empty_session (mkSession futureSRS [⟨some "w1", "b", "e"⟩]) 5 20 0
    (by decide) (by decide)

/-- C10 counterexample: at quality `0` on an item with
`ease=2.5, interval=10, repetitions=3`, the standalone
`calculate_next_review` returns ease `max(1.3, 2.5 - 0.2) = 2.3`, while
`review` computes `max(1.3, 2.5 - 0.8) = 1.7` — the two failure-branch
ease updates disagree. -/
theorem c10_counterexample :
    calculate_next_review 0 matureItem.ease_factor matureItem.interval
        matureItem.repetitions ≠
      ((reviewItem matureItem 0 0).interval,
       (reviewItem matureItem 0 0).ease_factor) := by
  have h1 : calculate_next_review 0 matureItem.ease_factor
      matureItem.interval matureItem.repetitions = (1, 23/10) := by
    show calculate_next_review 0 (5/2) 10 3 = (1, 23/10)
    unfold calculate_next_review
    norm_num
  have hc : ¬ (3 ≤ max 0 (min 5 (0 : ℤ))) := by decide
  have h2 : (reviewItem matureItem 0 0).ease_factor = 17/10 := by
    rw [reviewItem_ease_eq]
    have hm : max 0 (min 5 (0 : ℤ)) = 0 := by decide
    rw [hm]
    show max (13/10) ((5:ℚ)/2 + (1/10 - ((5 : ℚ) - ((0 : ℤ) : ℚ)) *
      (2/25 + ((5 : ℚ) - ((0 : ℤ) : ℚ)) * (1/50)))) = 17/10
    norm_num
  have h3 : (reviewItem matureItem 0 0).interval = 1 := by
    rw [reviewItem_interval_eq, if_neg hc]
  rw [h1, h2, h3]
  intro h
  have := congrArg Prod.snd h
  norm_num at this

/-- C10 (amended): for quality in `[0,5]`, the standalone
`calculate_next_review` agrees with `review`'s computation on the success
branch (quality `>= 3`): same interval and same ease.  On the failure
branch (quality `< 3`) only the interval agrees (both 1); the helper
applies the flat update `max(1.3, ease - 0.2)` while `review` applies the
full SM-2 formula, so the ease updates differ (see
`c10_counterexample`). -/
theorem c10_helper_vs_review (it : ReviewItem) (q now : ℤ)
    (h0 : 0 ≤ q) (h5 : q ≤ 5) :
    (3 ≤ q →
      calculate_next_review q it.ease_factor it.interval it.repetitions =
        ((reviewItem it q now).interval, (reviewItem it q now).ease_factor)) ∧
    (q < 3 →
      (calculate_next_review q it.ease_factor it.interval
          it.repetitions).1 = (reviewItem it q now).interval ∧
      (calculate_next_review q it.ease_factor it.interval
          it.repetitions).2 = max (13/10) (it.ease_factor - 1/5) ∧
      (reviewItem it q now).ease_factor =
        max (13/10) (it.ease_factor +
          (1/10 - ((5 : ℚ) - q) * (2/25 + ((5 : ℚ) - q) * (1/50))))) := by
  have hclamp : max 0 (min 5 q) = q := by
    rw [min_eq_right h5, max_eq_right h0]
  constructor
  · intro h3
    unfold calculate_next_review
    rw [if_neg (not_lt.2 h3), reviewItem_interval_eq, reviewItem_ease_eq,
      hclamp, if_pos h3]
  · intro hlt
    have hnot3 : ¬ 3 ≤ max 0 (min 5 q) := by rw [hclamp]; omega
    refine ⟨?_, ?_, ?_⟩
    · unfold calculate_next_review
      rw [if_pos hlt, reviewItem_interval_eq, if_neg hnot3]
    · unfold calculate_next_review
      rw [if_pos hlt]
    · rw [reviewItem_ease_eq, hclamp]

/-- Witness for `c10_helper_vs_review`: quality `4` on the mature item,
where helper and `review` agree exactly. -/
theorem c10_witness :
    calculate_next_review 4 matureItem.ease_factor matureItem.interval
        matureItem.repetitions =
      ((reviewItem matureItem 4 0).interval,
       (reviewItem matureItem 4 0).ease_factor) :=
  (c10_helper_vs_review matureItem 4 0 (by decide) (by decide)).1 (by decide)
